import Mathlib

/-!
Verification of the business-directory application's data layer and scoring
algorithms.  JavaScript values are shallowly embedded:

* numbers are `ℚ` (or `Int` for millisecond timestamps and ids);
* a field that may be absent or non-numeric is an `Option`;
* `localStorage` keys become explicit list parameters (`custom`, `deletedIds`,
  `hiddenIds`) passed to and returned from the operations;
* strings that are only parsed character by character (the URL hash) are
  `List Char`.
-/

/-- The `comments` field of a raw review: an array of comment strings, a bare
number (a legacy count), or something else entirely. -/
inductive CommentsField where
  | arr (l : List String)
  | num (q : ℚ)
  | other
deriving DecidableEq, Repr

/-- A review object.  `likes` is `none` when the stored value coerces to `NaN`
(missing or non-numeric); `image` is `none` when the field is absent.
`date` is the review timestamp in milliseconds since the epoch. -/
structure Review where
  id : Int
  businessId : Int
  text : String
  rating : ℚ
  likes : Option ℚ
  comments : CommentsField
  image : Option String
  date : Int
deriving DecidableEq, Repr

/-- A business object.  `rating` is `none` when absent; `distance` is `none`
until `addDistancesToBusinesses` has run. -/
structure Business where
  id : Int
  name : String
  category : String
  rating : Option ℚ
  latitude : ℚ
  longitude : ℚ
  distance : Option ℚ
deriving DecidableEq, Repr

/-- A deal object.  `startDate`/`endDate` are millisecond timestamps. -/
structure Deal where
  id : Int
  businessId : Int
  title : String
  startDate : Int
  endDate : Int
deriving DecidableEq, Repr

/-- JavaScript `Number(x) || 0`: a `NaN` (here `none`) and `0` both give `0`. -/
def numberOr0 (o : Option ℚ) : ℚ := o.getD 0

/-- `normalizeReview` from `reviewService.js`: coerce `likes` to a number
(default 0), force `comments` to an array (default `[]`), and substitute the
placeholder for a missing or empty `image`. -/
def normalizeReview (r : Review) : Review :=
  { r with
    likes := some (numberOr0 r.likes)
    comments := match r.comments with
      | CommentsField.arr l => CommentsField.arr l
      | _ => CommentsField.arr []
    image := some (match r.image with
      | some s => if s = "" then "review-placeholder.svg" else s
      | none => "review-placeholder.svg") }

/-- A review in the shape `normalizeReview` guarantees: numeric `likes`,
array `comments`, non-empty string `image`. -/
def Normalized (r : Review) : Prop :=
  (∃ q, r.likes = some q) ∧ (∃ l, r.comments = CommentsField.arr l) ∧
    (∃ s, r.image = some s ∧ s ≠ "")

/-- The `findIndex`-then-replace-else-push step of the custom overlay in
`businessService.loadBusinesses` and `dealsService.loadDeals`: replace the
first entry with `c`'s id, or append `c` when no entry matches. -/
def upsertById (idOf : α → Int) : List α → α → List α
  | [], c => [c]
  | b :: bs, c => if idOf b = idOf c then c :: bs else b :: upsertById idOf bs c

/-- `businessService.loadBusinesses`: drop soft-deleted ids from the base
list, then apply each custom entry as an edit (replace by id) or an
addition (push). -/
def loadBusinesses (base custom : List Business) (deletedIds : List Int) :
    List Business :=
  custom.foldl (upsertById Business.id)
    (base.filter (fun b => !(deletedIds.contains b.id)))

/-- `dealsService.loadDeals` merge step: identical shape to
`loadBusinesses`, over deals. -/
def loadDeals (base custom : List Deal) (deletedIds : List Int) : List Deal :=
  custom.foldl (upsertById Deal.id)
    (base.filter (fun d => !(deletedIds.contains d.id)))

/-- Lookup in a `Map` built from an association list: on duplicate keys the
last entry wins (JavaScript `new Map(entries).get`). -/
def lookupLast (idOf : α → Int) (l : List α) (i : Int) : Option α :=
  l.reverse.find? (fun c => idOf c == i)

/-- `reviewService.mergeReviews`: normalize base and custom reviews, overlay
custom entries onto base entries with the same id, append the rest of the
custom entries, then drop every entry whose id is soft-deleted. -/
def mergeReviews (base custom : List Review) (deletedIds : List Int) :
    List Review :=
  let original := base.map normalizeReview
  let customN := custom.map normalizeReview
  let merged := original.map (fun r => (lookupLast Review.id customN r.id).getD r)
  let additional := customN.filter (fun c => !(original.any (fun o => o.id == c.id)))
  (merged ++ additional).filter (fun r => !(deletedIds.contains r.id))

/-- The custom entry with a base entry's id, when there is one; otherwise the
base entry itself. -/
def overlayBy (idOf : α → Int) (custom : List α) (b : α) : α :=
  (custom.find? (fun c => idOf c == idOf b)).getD b

/-- Modelled from the spec's words: `merge(base, custom, deletedIds) ->
visible`, in which a custom entry replaces the base entry with the same id,
a custom entry with a new id is appended, and every entry whose id is in
`deletedIds` is excluded. -/
def specMerge (idOf : α → Int) (base custom : List α) (deletedIds : List Int) :
    List α :=
  ((base.map (overlayBy idOf custom)) ++
      custom.filter (fun c => !(base.any (fun b => idOf b == idOf c)))).filter
    (fun x => !(deletedIds.contains (idOf x)))

example :
    loadBusinesses [⟨1, "A", "Food", some 4, 0, 0, none⟩]
      [⟨1, "A2", "Food", some 5, 0, 0, none⟩] [1] =
      [⟨1, "A2", "Food", some 5, 0, 0, none⟩] := by decide

example :
    mergeReviews [⟨1, 10, "t", 4, some 0, CommentsField.arr [], some "x.svg", 0⟩]
      [⟨1, 10, "u", 5, some 0, CommentsField.arr [], some "x.svg", 0⟩] [1] = [] := by
  decide

/-- `reviewService.loadReviews`: the merged reviews without the admin-hidden
ones. -/
def loadReviews (base custom : List Review) (deletedIds hiddenIds : List Int) :
    List Review :=
  (mergeReviews base custom deletedIds).filter (fun r => !(hiddenIds.contains r.id))

/-- `reviewService.getReviewsForBusiness`: merged reviews for one business. -/
def getReviewsForBusiness (base custom : List Review) (deletedIds : List Int)
    (businessId : Int) : List Review :=
  (mergeReviews base custom deletedIds).filter (fun r => r.businessId == businessId)

/-- `reviewService.upsertCustomReview`: re-read (and hence re-normalize) the
stored custom reviews, replace the entry with the review's id or append, and
persist.  Returns the normalized review together with the new stored list. -/
def upsertCustomReview (custom : List Review) (review : Review) :
    Review × List Review :=
  let customN := custom.map normalizeReview
  let normalized := normalizeReview review
  let stored := match customN.findIdx? (fun r => r.id == review.id) with
    | some i => customN.set i normalized
    | none => customN ++ [normalized]
  (normalized, stored)

/-- `reviewService.addReview`: build a fresh review (id and date from
`Date.now()`, zero likes, no comments, placeholder image when none given) and
store it through `upsertCustomReview`. -/
def addReview (now businessId : Int) (text : String) (rating : ℚ)
    (image : Option String) (custom : List Review) : Review × List Review :=
  let newReview : Review :=
    { id := now
      businessId := businessId
      text := text
      rating := rating
      likes := some 0
      comments := CommentsField.arr []
      image := some (match image with
        | some s => if s = "" then "review-placeholder.svg" else s
        | none => "review-placeholder.svg")
      date := now }
  upsertCustomReview custom newReview

/-- `reviewService.likeReview`: find the review in the merged list; throw
`Review not found` when absent (leaving the stored customs untouched),
otherwise bump `likes` and store through `upsertCustomReview`. -/
def likeReview (base custom : List Review) (deletedIds : List Int)
    (reviewId : Int) : Except String Review × List Review :=
  match (mergeReviews base custom deletedIds).find? (fun r => r.id == reviewId) with
  | none => (Except.error "Review not found", custom)
  | some review =>
      let updated := { review with likes := some (numberOr0 review.likes + 1) }
      let res := upsertCustomReview custom updated
      (Except.ok res.1, res.2)

/-- `reviewService.commentOnReview`: like `likeReview`, but appending a
comment to the (array-coerced) comment list. -/
def commentOnReview (base custom : List Review) (deletedIds : List Int)
    (reviewId : Int) (commentText : String) : Except String Review × List Review :=
  match (mergeReviews base custom deletedIds).find? (fun r => r.id == reviewId) with
  | none => (Except.error "Review not found", custom)
  | some review =>
      let updated := { review with
        comments := CommentsField.arr ((match review.comments with
          | CommentsField.arr l => l
          | _ => []) ++ [commentText]) }
      let res := upsertCustomReview custom updated
      (Except.ok res.1, res.2)

/-- `adminDataService.deleteBusiness`: record the id in
`businesses_deleted_ids` unless already present, and purge any custom entry
with that id from `businesses_custom`.  Returns the two updated lists. -/
def deleteBusiness (i : Int) (deletedIds : List Int) (custom : List Business) :
    List Int × List Business :=
  ((if deletedIds.contains i then deletedIds else deletedIds ++ [i]),
    custom.filter (fun b => !(b.id == i)))

/-- `dateUtils.daysSince`: whole days (floor) between a stored date and now,
both in milliseconds. -/
def daysSince (now target : Int) : Int := Int.fdiv (now - target) 86400000

/-- `credibilityService.getCommentsCount`: array length, or the stored
number, or 0. -/
def getCommentsCount (r : Review) : ℚ :=
  match r.comments with
  | CommentsField.arr l => l.length
  | CommentsField.num q => q
  | CommentsField.other => 0

/-- `credibilityService.getRecencyWeight`: 5 under 7 days, 3 under 30,
else 1. -/
def getRecencyWeight (now : Int) (r : Review) : ℚ :=
  let days := daysSince now r.date
  if days < 7 then 5 else if days < 30 then 3 else 1

/-- `credibilityService.calculateCredibility`: `likes*2 + comments +
recencyWeight`. -/
def calculateCredibility (now : Int) (r : Review) : ℚ :=
  numberOr0 r.likes * 2 + getCommentsCount r + getRecencyWeight now r

/-- Modelled from the spec's words for the credibility score: likes (coerced
to a number, 0 when missing or non-numeric) times 2, plus the comment count
(array length, stored number, or 0), plus a recency bucket of 5 under 7 days
old, 3 under 30 days, and 1 otherwise. -/
def specCredibility (now : Int) (r : Review) : ℚ :=
  let likes : ℚ := match r.likes with | some q => q | none => 0
  let comments : ℚ := match r.comments with
    | CommentsField.arr l => l.length
    | CommentsField.num q => q
    | CommentsField.other => 0
  let recencyBucket : ℚ :=
    if daysSince now r.date < 7 then 5
    else if daysSince now r.date < 30 then 3
    else 1
  likes * 2 + comments + recencyBucket

/-- `dealsService.isDealActive`: now within `[startDate, endDate]`. -/
def isDealActive (now : Int) (d : Deal) : Bool :=
  decide (d.startDate ≤ now) && decide (now ≤ d.endDate)

/-- `dealsService.getActiveDeals` over a loaded deals cache. -/
def getActiveDeals (dealsCache : List Deal) (now : Int) : List Deal :=
  dealsCache.filter (isDealActive now)

/-- The preference object built by
`recommendationService.getUserPreferences`. -/
structure Preferences where
  preferredCategories : List String
  favorites : List Int
  historyCategories : List String
deriving DecidableEq, Repr

/-- `recommendationService.scoreBusiness`, accumulating the score exactly as
the source does: category match, rating weight, average review credibility
weight, active-deal bonus, history match. -/
def scoreBusiness (now : Int) (dealsCache : List Deal) (b : Business)
    (prefs : Preferences) (reviewsForBusiness : List Review) : ℚ :=
  let score : ℚ := 0
  let score := if prefs.preferredCategories.contains b.category
    then score + 20 else score
  let ratingScore := numberOr0 b.rating * 3
  let score := score + ratingScore
  let avgCredibility : ℚ :=
    if reviewsForBusiness.length > 0 then
      (reviewsForBusiness.map (calculateCredibility now)).sum /
        reviewsForBusiness.length
    else 0
  let score := score + avgCredibility * 1.5
  let hasDeal := (getActiveDeals dealsCache now).any
    (fun d => d.businessId == b.id)
  let score := if hasDeal then score + 10 else score
  let score := if prefs.historyCategories.contains b.category
    then score + 15 else score
  score

/-- Modelled from the spec's words for the recommendation score: +20 on a
preferred-category match, plus rating times 3, plus average review
credibility times 1.5 (0 with no reviews), plus +10 with an active deal,
plus +15 on a top-viewed history-category match. -/
def specScore (now : Int) (dealsCache : List Deal) (b : Business)
    (prefs : Preferences) (reviewsForBusiness : List Review) : ℚ :=
  (if prefs.preferredCategories.contains b.category then (20 : ℚ) else 0) +
    numberOr0 b.rating * 3 +
    (if reviewsForBusiness.length > 0 then
      (reviewsForBusiness.map (calculateCredibility now)).sum /
        reviewsForBusiness.length
    else 0) * (3 / 2) +
    (if (getActiveDeals dealsCache now).any (fun d => d.businessId == b.id)
      then (10 : ℚ) else 0) +
    (if prefs.historyCategories.contains b.category then (15 : ℚ) else 0)

/-- `recommendationService.getRecommendedBusinesses`: skip favorited
businesses, score the rest against their reviews, sort by score descending
(stable), and keep the first `limit`. -/
def getRecommendedBusinesses (now : Int) (dealsCache : List Deal)
    (businesses : List Business) (prefs : Preferences)
    (allReviews : List Review) (limit : Nat) : List (Business × ℚ) :=
  let scored := (businesses.filter
      (fun b => !(prefs.favorites.contains b.id))).map
    (fun b => (b, scoreBusiness now dealsCache b prefs
      (allReviews.filter (fun r => r.businessId == b.id))))
  (scored.mergeSort (fun x y => decide (y.2 ≤ x.2))).take limit

/-- `distanceUtils.filterByDistance`: keep a business when its `distance` is
truthy (present and non-zero) and at most the radius;
`businessService.getBusinessesWithinRadius` delegates here. -/
def filterByDistance (businesses : List Business) (radiusInMiles : ℚ) :
    List Business :=
  businesses.filter (fun b =>
    match b.distance with
    | none => false
    | some d => !(d == 0) && decide (d ≤ radiusInMiles))

/-- JavaScript `hash.split('/')` on a character list: splitting the empty
string gives `[""]`, and separators at the ends give empty segments. -/
def splitSlash : List Char → List (List Char)
  | [] => [[]]
  | c :: cs =>
    let r := splitSlash cs
    if c = '/' then [] :: r
    else
      match r with
      | [] => [[c]]
      | h :: t => (c :: h) :: t

/-- The page a route renders.  `business` carries the optional id
parameter the router passes to `loadBusinessPage`. -/
inductive Page where
  | home
  | business (param : Option (List Char))
  | favorites
  | admin
  | judge
deriving DecidableEq, Repr

/-- The own keys of the router's `routes` object literal. -/
def routeKeys : List (List Char) :=
  ["home".toList, "business".toList, "favorites".toList, "admin".toList,
    "judge".toList]

/-- The property names `routes[route]` also finds through the prototype
chain: the own properties of `Object.prototype`.  Every one of them
evaluates to a truthy value (a function, or for `__proto__` the
`Object.prototype` object itself). -/
def protoProps : List (List Char) :=
  ["constructor".toList, "hasOwnProperty".toList, "isPrototypeOf".toList,
    "propertyIsEnumerable".toList, "toLocaleString".toList,
    "toString".toList, "valueOf".toList, "__defineGetter__".toList,
    "__defineSetter__".toList, "__lookupGetter__".toList,
    "__lookupSetter__".toList, "__proto__".toList]

/-- What the property access `routes[route]` evaluates to: one of the five
declared (own) route functions, a truthy member inherited from
`Object.prototype`, or `undefined` (falsy). -/
inductive RouteValue where
  | pageFn (p : Page)
  | protoFn (name : List Char)
  | undef
deriving DecidableEq, Repr

/-- The JavaScript property lookup `routes[route]`: own keys first (the bare
`business` route renders the business page with no id), then the prototype
chain, then `undefined`. -/
def lookupRoute (route : List Char) : RouteValue :=
  if route = "home".toList then RouteValue.pageFn Page.home
  else if route = "business".toList then RouteValue.pageFn (Page.business none)
  else if route = "favorites".toList then RouteValue.pageFn Page.favorites
  else if route = "admin".toList then RouteValue.pageFn Page.admin
  else if route = "judge".toList then RouteValue.pageFn Page.judge
  else if route ∈ protoProps then RouteValue.protoFn route
  else RouteValue.undef

/-- The route name a page belongs to. -/
def routeName : Page → List Char
  | Page.home => "home".toList
  | Page.business _ => "business".toList
  | Page.favorites => "favorites".toList
  | Page.admin => "admin".toList
  | Page.judge => "judge".toList

/-- What one `handleRoute` call does: render a page, or invoke a member
inherited from `Object.prototype` — which renders no page at all (and for
the non-callable `__proto__` value throws a TypeError). -/
inductive Dispatch where
  | page (p : Page)
  | inheritedCall (name : List Char)
deriving DecidableEq, Repr

/-- `router.handleRoute`: default an empty hash to `#/home`, strip the
`#/` prefix, split on `/`; a `business` route with a (truthy) parameter
renders the business page with that id; otherwise `routes[route]` is looked
up and, when truthy, called — a declared route function renders its page,
an inherited `Object.prototype` member renders nothing — and only a falsy
lookup falls back to home. -/
def handleRoute (hash : List Char) : Dispatch :=
  let h := if hash = [] then "#/home".toList else hash
  let parts := splitSlash (h.drop 2)
  let route := parts.headD []
  let param : Option (List Char) :=
    match parts.drop 1 with
    | [] => none
    | p :: _ => if p = [] then none else some p
  if route = "business".toList ∧ param ≠ none then
    Dispatch.page (Page.business param)
  else
    match lookupRoute route with
    | RouteValue.pageFn page => Dispatch.page page
    | RouteValue.protoFn name => Dispatch.inheritedCall name
    | RouteValue.undef => Dispatch.page Page.home

/-- The first segment of a hash, parsed the way `handleRoute` parses it. -/
def firstSegment (hash : List Char) : List Char :=
  (splitSlash (hash.drop 2)).headD []

example : handleRoute "#/business/123".toList =
    Dispatch.page (Page.business (some "123".toList)) := by decide

example : handleRoute "".toList = Dispatch.page Page.home := by decide

example : handleRoute "#/nonsense/1".toList = Dispatch.page Page.home := by
  decide

example : handleRoute "#/judge".toList = Dispatch.page Page.judge := by decide

example : handleRoute "#/toString".toList =
    Dispatch.inheritedCall "toString".toList := by decide

/-- `distanceUtils.toRad`: degrees to radians. -/
noncomputable def toRad (deg : ℝ) : ℝ := deg * (Real.pi / 180)

/-- JavaScript `Math.atan2` on real arguments. -/
noncomputable def atan2 (y x : ℝ) : ℝ :=
  if 0 < x then Real.arctan (y / x)
  else if x < 0 ∧ 0 ≤ y then Real.arctan (y / x) + Real.pi
  else if x < 0 then Real.arctan (y / x) - Real.pi
  else if 0 < y then Real.pi / 2
  else if y < 0 then -(Real.pi / 2)
  else 0

/-- `distanceUtils.calculateDistance`: the Haversine great-circle distance,
with Earth radius 6371 km for unit `K` and 3959 miles otherwise. -/
noncomputable def calculateDistance (lat1 lon1 lat2 lon2 : ℝ)
    (unit : String) : ℝ :=
  let R : ℝ := if unit = "K" then 6371 else 3959
  let dLat := toRad (lat2 - lat1)
  let dLon := toRad (lon2 - lon1)
  let a := Real.sin (dLat / 2) * Real.sin (dLat / 2) +
    Real.cos (toRad lat1) * Real.cos (toRad lat2) *
      Real.sin (dLon / 2) * Real.sin (dLon / 2)
  let c := 2 * atan2 (Real.sqrt a) (Real.sqrt (1 - a))
  R * c


/-! ### Helper lemmas -/

lemma normalizeReview_id (r : Review) : (normalizeReview r).id = r.id := rfl

lemma overlayBy_idOf (idOf : α → Int) (custom : List α) (b : α) :
    idOf (overlayBy idOf custom b) = idOf b := by
  unfold overlayBy
  cases hf : custom.find? (fun c => idOf c == idOf b) with
  | none => rfl
  | some c =>
      have := List.find?_some hf
      simp only [Option.getD_some]
      exact beq_iff_eq.mp this

lemma upsertById_of_forall_ne (idOf : α → Int) (c : α) :
    ∀ base : List α, (∀ b ∈ base, idOf b ≠ idOf c) →
      upsertById idOf base c = base ++ [c] := by
  intro base
  induction base with
  | nil => intro _; rfl
  | cons b bs ih =>
      intro h
      have hb : idOf b ≠ idOf c := h b (List.mem_cons_self b bs)
      simp only [upsertById, if_neg hb, List.cons_append]
      rw [ih (fun x hx => h x (List.mem_cons_of_mem b hx))]

lemma upsertById_of_mem (idOf : α → Int) (c : α) :
    ∀ base : List α, (base.map idOf).Nodup → idOf c ∈ base.map idOf →
      upsertById idOf base c =
        base.map (fun b => if idOf b = idOf c then c else b) := by
  intro base
  induction base with
  | nil => intro _ h; simp at h
  | cons b bs ih =>
      intro hnd hmem
      rw [List.map_cons, List.nodup_cons] at hnd
      by_cases hb : idOf b = idOf c
      · simp only [upsertById, if_pos hb, List.map_cons, if_pos hb]
        have : bs.map (fun x => if idOf x = idOf c then c else x) = bs.map id := by
          apply List.map_congr_left
          intro x hx
          have : idOf x ≠ idOf c := by
            intro hxc
            exact hnd.1 (hb ▸ hxc ▸ List.mem_map_of_mem idOf hx)
          simp [this]
        rw [this, List.map_id]
      · have hmem' : idOf c ∈ bs.map idOf := by
          rcases List.mem_cons.mp hmem with h | h
          · exact absurd h.symm hb
          · exact h
        simp only [upsertById, if_neg hb, List.map_cons, if_neg hb]
        rw [ih hnd.2 hmem']

lemma foldl_upsert_eq (idOf : α → Int) :
    ∀ custom base : List α, (base.map idOf).Nodup → (custom.map idOf).Nodup →
      custom.foldl (upsertById idOf) base =
        base.map (overlayBy idOf custom) ++
          custom.filter (fun c => !(base.any (fun b => idOf b == idOf c))) := by
  intro custom
  induction custom with
  | nil =>
      intro base _ _
      simp only [List.foldl_nil, List.filter_nil, List.append_nil]
      have : base.map (overlayBy idOf []) = base.map id := by
        apply List.map_congr_left
        intro b _
        simp [overlayBy]
      rw [this, List.map_id]
  | cons c cs ih =>
      intro base hb hc
      rw [List.map_cons, List.nodup_cons] at hc
      obtain ⟨hc1, hc2⟩ := hc
      rw [List.foldl_cons]
      by_cases hmem : idOf c ∈ base.map idOf
      · rw [upsertById_of_mem idOf c base hb hmem]
        have hsubst : ∀ b, idOf (if idOf b = idOf c then c else b) = idOf b := by
          intro b
          by_cases h : idOf b = idOf c
          · simp [h]
          · simp [h]
        have hids : ((base.map fun b => if idOf b = idOf c then c else b).map idOf)
            = base.map idOf := by
          rw [List.map_map]
          apply List.map_congr_left
          intro b _
          exact hsubst b
        rw [ih (base.map fun b => if idOf b = idOf c then c else b) (hids ▸ hb) hc2]
        have hovc : overlayBy idOf cs c = c := by
          unfold overlayBy
          rw [List.find?_eq_none.mpr]
          · rfl
          · intro x hx
            simp only [beq_iff_eq]
            intro hxc
            exact hc1 (hxc ▸ List.mem_map_of_mem idOf hx)
        have h5 : (base.map fun b => if idOf b = idOf c then c else b).map
            (overlayBy idOf cs) = base.map (overlayBy idOf (c :: cs)) := by
          rw [List.map_map]
          apply List.map_congr_left
          intro b _
          by_cases h : idOf b = idOf c
          · simp only [Function.comp_apply, if_pos h, hovc]
            unfold overlayBy
            rw [List.find?_cons_of_pos]
            · rfl
            · simp [beq_iff_eq, h.symm]
          · simp only [Function.comp_apply, if_neg h]
            unfold overlayBy
            rw [List.find?_cons_of_neg]
            simp only [beq_iff_eq]
            exact fun hcb => h hcb.symm
        have h6 : cs.filter (fun x =>
              !((base.map fun b => if idOf b = idOf c then c else b).any
                (fun b => idOf b == idOf x))) =
            cs.filter (fun x => !(base.any (fun b => idOf b == idOf x))) := by
          apply List.filter_congr
          intro x _
          rw [List.any_map]
          simp only [Function.comp_def, hsubst]
        have h7 : (c :: cs).filter (fun x => !(base.any (fun b => idOf b == idOf x))) =
            cs.filter (fun x => !(base.any (fun b => idOf b == idOf x))) := by
          obtain ⟨b0, hb0, hb0c⟩ := List.mem_map.mp hmem
          have hany : base.any (fun b => idOf b == idOf c) = true := by
            rw [List.any_eq_true]
            refine ⟨b0, hb0, ?_⟩
            simpa [beq_iff_eq] using hb0c
          simp [List.filter_cons, hany]
        rw [h5, h6, h7]
      · have hne : ∀ b ∈ base, idOf b ≠ idOf c := by
          intro b hbm heq
          exact hmem (heq ▸ List.mem_map_of_mem idOf hbm)
        rw [upsertById_of_forall_ne idOf c base hne]
        have hnodup' : ((base ++ [c]).map idOf).Nodup := by
          rw [List.map_append]
          refine List.nodup_append.mpr ⟨hb, List.nodup_singleton _, ?_⟩
          intro a ha hac
          rw [List.map_singleton, List.mem_singleton] at hac
          exact hmem (hac ▸ ha)
        rw [ih (base ++ [c]) hnodup' hc2]
        have hovc : overlayBy idOf cs c = c := by
          unfold overlayBy
          rw [List.find?_eq_none.mpr]
          · rfl
          · intro x hx
            simp only [beq_iff_eq]
            intro hxc
            exact hc1 (hxc ▸ List.mem_map_of_mem idOf hx)
        have h1 : base.map (overlayBy idOf cs) = base.map (overlayBy idOf (c :: cs)) := by
          apply List.map_congr_left
          intro b hbm
          unfold overlayBy
          rw [List.find?_cons_of_neg]
          simp only [beq_iff_eq]
          exact fun hcb => hne b hbm hcb.symm
        have h3 : cs.filter (fun x => !((base ++ [c]).any (fun b => idOf b == idOf x))) =
            cs.filter (fun x => !(base.any (fun b => idOf b == idOf x))) := by
          apply List.filter_congr
          intro x hx
          rw [List.any_append]
          have : ([c].any (fun b => idOf b == idOf x)) = false := by
            simp only [List.any_cons, List.any_nil, Bool.or_false]
            rw [beq_eq_false_iff_ne]
            intro hcx
            exact hc1 (hcx ▸ List.mem_map_of_mem idOf hx)
          rw [this, Bool.or_false]
        have h4 : (c :: cs).filter (fun x => !(base.any (fun b => idOf b == idOf x))) =
            c :: cs.filter (fun x => !(base.any (fun b => idOf b == idOf x))) := by
          rw [List.filter_cons_of_pos]
          simp only [Bool.not_eq_eq_eq_not, Bool.not_true, Bool.not_eq_true']
          rw [← Bool.not_eq_true]
          intro hany
          obtain ⟨b, hbm, hbc⟩ := List.any_eq_true.mp hany
          exact hne b hbm (beq_iff_eq.mp hbc)
        rw [List.map_append, List.map_singleton, hovc, h1, h3, h4,
          List.append_assoc, List.singleton_append]

lemma anyId_filter_eq (idOf : α → Int) (base : List α) (deletedIds : List Int)
    (x : α) (hx : idOf x ∉ deletedIds) :
    (base.filter (fun b => !(deletedIds.contains (idOf b)))).any
        (fun b => idOf b == idOf x) =
      base.any (fun b => idOf b == idOf x) := by
  rcases hA : base.any (fun b => idOf b == idOf x) with _ | _
  · rw [Bool.eq_false_iff] at hA ⊢
    intro hB
    apply hA
    obtain ⟨b, hbm, hbe⟩ := List.any_eq_true.mp hB
    exact List.any_eq_true.mpr ⟨b, (List.mem_filter.mp hbm).1, hbe⟩
  · obtain ⟨b, hbm, hbe⟩ := List.any_eq_true.mp hA
    apply List.any_eq_true.mpr
    refine ⟨b, List.mem_filter.mpr ⟨hbm, ?_⟩, hbe⟩
    have hbx : idOf b = idOf x := beq_iff_eq.mp hbe
    simp [hbx, hx]

lemma mergeBaseFirst_eq_specMerge (idOf : α → Int) (base custom : List α)
    (deletedIds : List Int) (hb : (base.map idOf).Nodup)
    (hc : (custom.map idOf).Nodup)
    (hd : ∀ c ∈ custom, idOf c ∉ deletedIds) :
    custom.foldl (upsertById idOf)
        (base.filter (fun b => !(deletedIds.contains (idOf b)))) =
      specMerge idOf base custom deletedIds := by
  have hbf : ((base.filter (fun b => !(deletedIds.contains (idOf b)))).map idOf).Nodup :=
    hb.sublist ((List.filter_sublist base).map idOf)
  rw [foldl_upsert_eq idOf custom _ hbf hc]
  unfold specMerge
  rw [List.filter_append]
  congr 1
  · rw [List.filter_map]
    have : base.filter ((fun x => !(deletedIds.contains (idOf x))) ∘ overlayBy idOf custom) =
        base.filter (fun b => !(deletedIds.contains (idOf b))) := by
      apply List.filter_congr
      intro b _
      simp only [Function.comp_apply, overlayBy_idOf]
    rw [this]
  · have hself : (custom.filter (fun c => !(base.any (fun b => idOf b == idOf c)))).filter
          (fun x => !(deletedIds.contains (idOf x))) =
        custom.filter (fun c => !(base.any (fun b => idOf b == idOf c))) := by
      apply List.filter_eq_self.mpr
      intro c hcm
      have : idOf c ∉ deletedIds := hd c (List.mem_of_mem_filter hcm)
      simp [this]
    rw [hself]
    apply List.filter_congr
    intro c hcm
    have := anyId_filter_eq idOf base deletedIds c (hd c hcm)
    rw [this]

lemma lookupLast_eq_find? (idOf : α → Int) :
    ∀ l : List α, (l.map idOf).Nodup → ∀ i : Int,
      lookupLast idOf l i = l.find? (fun c => idOf c == i) := by
  intro l
  induction l with
  | nil => intro _ _; rfl
  | cons x xs ih =>
      intro hnd i
      rw [List.map_cons, List.nodup_cons] at hnd
      unfold lookupLast
      rw [List.reverse_cons, List.find?_append]
      rcases hp : (idOf x == i) with _ | _
      · have h1 : List.find? (fun c => idOf c == i) [x] = none := by
          simp [List.find?, hp]
        have h2 : List.find? (fun c => idOf c == i) (x :: xs) =
            List.find? (fun c => idOf c == i) xs := by
          apply List.find?_cons_of_neg
          simp [hp]
        rw [h1, h2, ← ih hnd.2 i]
        unfold lookupLast
        cases xs.reverse.find? (fun c => idOf c == i) <;> rfl
      · have hxi : idOf x = i := beq_iff_eq.mp hp
        have h1 : List.find? (fun c => idOf c == i) [x] = some x := by
          simp [List.find?, hp]
        have h2 : List.find? (fun c => idOf c == i) (x :: xs) = some x := by
          apply List.find?_cons_of_pos
          simp [hp]
        have hnone : xs.reverse.find? (fun c => idOf c == i) = none := by
          rw [List.find?_eq_none]
          intro y hy
          simp only [beq_iff_eq]
          intro hyi
          apply hnd.1
          rw [hxi, ← hyi]
          exact List.mem_map_of_mem idOf (List.mem_reverse.mp hy)
        rw [h1, h2, hnone]
        rfl

lemma mergeReviews_eq_specMerge (base custom : List Review) (deletedIds : List Int)
    (hc : (custom.map Review.id).Nodup) :
    mergeReviews base custom deletedIds =
      specMerge Review.id (base.map normalizeReview)
        (custom.map normalizeReview) deletedIds := by
  have hcn : ((custom.map normalizeReview).map Review.id).Nodup := by
    rw [List.map_map]
    have : (fun r => Review.id (normalizeReview r)) = Review.id := by
      funext r
      rfl
    rw [Function.comp_def, this]
    exact hc
  have hmap : (base.map normalizeReview).map
      (fun r => (lookupLast Review.id (custom.map normalizeReview) r.id).getD r) =
      (base.map normalizeReview).map
        (overlayBy Review.id (custom.map normalizeReview)) := by
    apply List.map_congr_left
    intro r _
    rw [lookupLast_eq_find? Review.id (custom.map normalizeReview) hcn r.id]
    rfl
  simp only [mergeReviews, specMerge]
  rw [hmap]

lemma normalizeReview_normalized (r : Review) : Normalized (normalizeReview r) := by
  refine ⟨⟨numberOr0 r.likes, rfl⟩, ?_, ?_⟩
  · cases hc : r.comments with
    | arr l => exact ⟨l, by simp [normalizeReview, hc]⟩
    | num q => exact ⟨[], by simp [normalizeReview, hc]⟩
    | other => exact ⟨[], by simp [normalizeReview, hc]⟩
  · cases himg : r.image with
    | none => exact ⟨"review-placeholder.svg", by simp [normalizeReview, himg], by decide⟩
    | some s =>
        by_cases hs : s = ""
        · exact ⟨"review-placeholder.svg", by simp [normalizeReview, himg, hs], by decide⟩
        · exact ⟨s, by simp [normalizeReview, himg, hs], hs⟩

lemma normalizeReview_of_normalized (r : Review) (h : Normalized r) :
    normalizeReview r = r := by
  obtain ⟨⟨q, hq⟩, ⟨l, hl⟩, ⟨s, hs, hne⟩⟩ := h
  cases r
  simp_all [normalizeReview, numberOr0]

lemma mem_map_normalizeReview_normalized (l : List Review) (r : Review)
    (h : r ∈ l.map normalizeReview) : Normalized r := by
  obtain ⟨x, _, hx⟩ := List.mem_map.mp h
  exact hx ▸ normalizeReview_normalized x

lemma mem_mergeReviews_normalized (base custom : List Review) (deletedIds : List Int)
    (r : Review) (h : r ∈ mergeReviews base custom deletedIds) : Normalized r := by
  simp only [mergeReviews] at h
  have h' := List.mem_of_mem_filter h
  rcases List.mem_append.mp h' with hm | ha
  · obtain ⟨r0, hr0, hr0e⟩ := List.mem_map.mp hm
    cases hf : lookupLast Review.id (custom.map normalizeReview) r0.id with
    | none =>
        rw [hf] at hr0e
        exact hr0e ▸ mem_map_normalizeReview_normalized base r0 hr0
    | some c =>
        rw [hf] at hr0e
        have hcm : c ∈ (custom.map normalizeReview).reverse :=
          List.mem_of_find?_eq_some hf
        have : c ∈ custom.map normalizeReview := List.mem_reverse.mp hcm
        exact hr0e ▸ mem_map_normalizeReview_normalized custom c this
  · exact mem_map_normalizeReview_normalized custom r (List.mem_of_mem_filter ha)

lemma mem_upsertById (idOf : α → Int) (c x : α) :
    ∀ l : List α, x ∈ upsertById idOf l c → x ∈ l ∨ x = c := by
  intro l
  induction l with
  | nil =>
      intro h
      right
      simpa [upsertById] using h
  | cons b bs ih =>
      intro h
      by_cases hb : idOf b = idOf c
      · simp only [upsertById, if_pos hb, List.mem_cons] at h
        rcases h with h | h
        · right; exact h
        · left; exact List.mem_cons_of_mem b h
      · simp only [upsertById, if_neg hb, List.mem_cons] at h
        rcases h with h | h
        · left; exact List.mem_cons.mpr (Or.inl h)
        · rcases ih h with h' | h'
          · left; exact List.mem_cons_of_mem b h'
          · right; exact h'

lemma mem_foldl_upsert (idOf : α → Int) (x : α) :
    ∀ custom base : List α,
      x ∈ custom.foldl (upsertById idOf) base → x ∈ base ∨ x ∈ custom := by
  intro custom
  induction custom with
  | nil => intro base h; left; exact h
  | cons c cs ih =>
      intro base h
      rw [List.foldl_cons] at h
      rcases ih (upsertById idOf base c) h with h' | h'
      · rcases mem_upsertById idOf c x base h' with h'' | h''
        · left; exact h''
        · right; exact h'' ▸ List.mem_cons_self c cs
      · right; exact List.mem_cons_of_mem c h'

lemma splitSlash_no_slash : ∀ l : List Char, '/' ∉ l → splitSlash l = [l] := by
  intro l
  induction l with
  | nil => intro _; rfl
  | cons c cs ih =>
      intro h
      have hc : c ≠ '/' := fun hcs => h (hcs ▸ List.mem_cons_self c cs)
      have hr : splitSlash cs = [cs] := ih (fun hm => h (List.mem_cons_of_mem c hm))
      simp [splitSlash, hr, hc]

lemma splitSlash_append_cons :
    ∀ pre : List Char, '/' ∉ pre → ∀ rest,
      splitSlash (pre ++ '/' :: rest) = pre :: splitSlash rest := by
  intro pre
  induction pre with
  | nil => intro _ rest; simp [splitSlash]
  | cons c cs ih =>
      intro h rest
      have hc : c ≠ '/' := fun hcs => h (hcs ▸ List.mem_cons_self c cs)
      have hr := ih (fun hm => h (List.mem_cons_of_mem c hm)) rest
      simp [splitSlash, hr, hc]

/-! ### Claim theorems -/

/-- C2: for every review, `calculateCredibility` returns
`likes*2 + comments + recencyBucket`, with likes coerced to a number
(0 when missing or non-numeric), comments the array length or stored number
or 0, and the recency bucket 5 under 7 days, 3 under 30 days, else 1. -/
theorem calculateCredibility_matches_spec (now : Int) (r : Review) :
    calculateCredibility now r = specCredibility now r := by
  cases hl : r.likes <;>
    simp [calculateCredibility, specCredibility, numberOr0, getCommentsCount,
      getRecencyWeight, daysSince, hl]

/-- C3: for every business, preference set and review list, `scoreBusiness`
returns the additive weighted sum of +20 for a preferred-category match,
rating times 3, average review credibility times 1.5 (0 with no reviews),
+10 for an active deal, and +15 for a history-category match. -/
theorem scoreBusiness_matches_spec (now : Int) (dealsCache : List Deal)
    (b : Business) (prefs : Preferences) (reviewsForBusiness : List Review) :
    scoreBusiness now dealsCache b prefs reviewsForBusiness =
      specScore now dealsCache b prefs reviewsForBusiness := by
  simp only [scoreBusiness, specScore]
  by_cases h1 : b.category ∈ prefs.preferredCategories <;>
    by_cases h2 : (getActiveDeals dealsCache now).any
        (fun d => d.businessId == b.id) = true <;>
      by_cases h3 : b.category ∈ prefs.historyCategories <;>
        simp [h1, h2, h3] <;> ring_nf

/-- C4: for every pair of coordinates and unit, `calculateDistance` returns
the Haversine great-circle distance `R*c`, with `R = 6371` for unit `K` and
`3959` otherwise, `a = sin^2(dLat/2) + cos(lat1)*cos(lat2)*sin^2(dLon/2)`,
`c = 2*atan2(sqrt(a), sqrt(1-a))`, and angles converted to radians. -/
theorem calculateDistance_matches_spec (lat1 lon1 lat2 lon2 : ℝ)
    (unit : String) :
    calculateDistance lat1 lon1 lat2 lon2 unit =
      (if unit = "K" then (6371 : ℝ) else 3959) *
        (2 * atan2
          (Real.sqrt (Real.sin (toRad (lat2 - lat1) / 2) ^ 2 +
            Real.cos (toRad lat1) * Real.cos (toRad lat2) *
              Real.sin (toRad (lon2 - lon1) / 2) ^ 2))
          (Real.sqrt (1 - (Real.sin (toRad (lat2 - lat1) / 2) ^ 2 +
            Real.cos (toRad lat1) * Real.cos (toRad lat2) *
              Real.sin (toRad (lon2 - lon1) / 2) ^ 2)))) := by
  simp only [calculateDistance]
  ring_nf

/-- C8: `filterByDistance` (to which `getBusinessesWithinRadius` delegates)
returns exactly the businesses whose distance is truthy (present and
non-zero) and at most the radius; a business at distance exactly 0 is never
returned. -/
theorem filterByDistance_characterization (businesses : List Business)
    (radiusInMiles : ℚ) (b : Business) :
    (b ∈ filterByDistance businesses radiusInMiles ↔
      b ∈ businesses ∧ ∃ d, b.distance = some d ∧ d ≠ 0 ∧ d ≤ radiusInMiles) ∧
    (b.distance = some 0 → b ∉ filterByDistance businesses radiusInMiles) := by
  constructor
  · rw [filterByDistance, List.mem_filter]
    constructor
    · rintro ⟨hb, hp⟩
      refine ⟨hb, ?_⟩
      cases hd : b.distance with
      | none => rw [hd] at hp; simp at hp
      | some d =>
          rw [hd] at hp
          simp only [Bool.and_eq_true, Bool.not_eq_true', beq_eq_false_iff_ne,
            decide_eq_true_eq] at hp
          exact ⟨d, rfl, hp.1, hp.2⟩
    · rintro ⟨hb, d, hd, h0, hr⟩
      refine ⟨hb, ?_⟩
      rw [hd]
      simp [h0, hr]
  · intro h0 hmem
    rw [filterByDistance, List.mem_filter] at hmem
    rw [h0] at hmem
    simp at hmem

/-- C1 counterexample: with base, custom and deleted-ID lists that pair an
edited (custom) entry with a soft-deleted id, `loadBusinesses` keeps the
custom entry even though its id is in `deletedIds`, while `mergeReviews` on
the correspondingly-shaped data excludes it — so the three services do not
all return the same visible list the claimed `merge` describes. -/
theorem merge_counterexample :
    (1 : Int) ∈ [(1 : Int)] ∧
    (loadBusinesses [⟨1, "A", "Food", some 4, 0, 0, none⟩]
      [⟨1, "A2", "Food", some 5, 0, 0, none⟩] [1]).map Business.id = [1] ∧
    (mergeReviews
      [⟨1, 10, "t", 4, some 0, CommentsField.arr [], some "p.svg", 0⟩]
      [⟨1, 10, "u", 5, some 0, CommentsField.arr [], some "p.svg", 0⟩]
      [1]).map Review.id = [] := by decide

/-- C1 (amended): when base ids and custom ids are each duplicate-free and no
custom entry's id is soft-deleted, `loadBusinesses`, `loadDeals` and
`mergeReviews` all return exactly `specMerge(base, custom, deletedIds)`
(reviews over normalized entries); in general `loadBusinesses`/`loadDeals`
filter `deletedIds` only out of the base list before the custom overlay, so a
custom entry with a deleted id stays visible there but not in
`mergeReviews`. -/
theorem merge_functions_agree
    (bb bc : List Business) (bd : List Int)
    (db dc : List Deal) (dd : List Int)
    (rb rc : List Review) (rd : List Int)
    (hb1 : (bb.map Business.id).Nodup) (hb2 : (bc.map Business.id).Nodup)
    (hb3 : ∀ c ∈ bc, c.id ∉ bd)
    (hd1 : (db.map Deal.id).Nodup) (hd2 : (dc.map Deal.id).Nodup)
    (hd3 : ∀ c ∈ dc, c.id ∉ dd)
    (hr2 : (rc.map Review.id).Nodup) :
    loadBusinesses bb bc bd = specMerge Business.id bb bc bd ∧
    loadDeals db dc dd = specMerge Deal.id db dc dd ∧
    mergeReviews rb rc rd =
      specMerge Review.id (rb.map normalizeReview) (rc.map normalizeReview) rd := by
  refine ⟨?_, ?_, ?_⟩
  · exact mergeBaseFirst_eq_specMerge Business.id bb bc bd hb1 hb2 hb3
  · exact mergeBaseFirst_eq_specMerge Deal.id db dc dd hd1 hd2 hd3
  · exact mergeReviews_eq_specMerge rb rc rd hr2

/-- Witness for the amended C1 theorem at concrete data. -/
theorem merge_functions_agree_witness :
    loadBusinesses [⟨1, "A", "Food", some 4, 0, 0, none⟩]
        [⟨2, "B", "Retail", some 3, 0, 0, none⟩] [3] =
      specMerge Business.id [⟨1, "A", "Food", some 4, 0, 0, none⟩]
        [⟨2, "B", "Retail", some 3, 0, 0, none⟩] [3] ∧
    loadDeals [⟨1, 1, "d", 0, 5⟩] [⟨2, 1, "e", 0, 9⟩] [3] =
      specMerge Deal.id [⟨1, 1, "d", 0, 5⟩] [⟨2, 1, "e", 0, 9⟩] [3] ∧
    mergeReviews
        [⟨1, 1, "t", 4, some 0, CommentsField.arr [], some "p.svg", 0⟩]
        [⟨2, 1, "u", 5, none, CommentsField.other, none, 0⟩] [3] =
      specMerge Review.id
        ([⟨1, 1, "t", 4, some 0, CommentsField.arr [], some "p.svg", 0⟩].map
          normalizeReview)
        ([⟨2, 1, "u", 5, none, CommentsField.other, none, 0⟩].map
          normalizeReview) [3] :=
  merge_functions_agree _ _ _ _ _ _ _ _ _
    (by decide) (by decide) (by decide) (by decide) (by decide) (by decide)
    (by decide)

/-- C5: after `deleteBusiness(id)` the merged business list contains no
business with that id, the id is recorded in the deleted-ID list (and not
re-recorded when already present, so a repeated delete leaves the state
unchanged and a duplicate-free list stays duplicate-free), and every custom
entry with that id is removed. -/
theorem deleteBusiness_spec (base custom : List Business)
    (deletedIds : List Int) (i : Int) :
    (∀ b ∈ loadBusinesses base (deleteBusiness i deletedIds custom).2
        (deleteBusiness i deletedIds custom).1, b.id ≠ i) ∧
    i ∈ (deleteBusiness i deletedIds custom).1 ∧
    (i ∈ deletedIds → (deleteBusiness i deletedIds custom).1 = deletedIds) ∧
    (deletedIds.Nodup → (deleteBusiness i deletedIds custom).1.Nodup) ∧
    deleteBusiness i (deleteBusiness i deletedIds custom).1
        (deleteBusiness i deletedIds custom).2 =
      deleteBusiness i deletedIds custom ∧
    (∀ b ∈ (deleteBusiness i deletedIds custom).2, b.id ≠ i) := by
  have hifst : i ∈ (deleteBusiness i deletedIds custom).1 := by
    simp only [deleteBusiness]
    by_cases hc : deletedIds.contains i = true
    · rw [if_pos hc]
      exact List.elem_iff.mp hc
    · rw [if_neg hc]
      exact List.mem_append.mpr (Or.inr (List.mem_singleton.mpr rfl))
  have hcsnd : ∀ b ∈ (deleteBusiness i deletedIds custom).2, b.id ≠ i := by
    intro b hb
    simp only [deleteBusiness] at hb
    have hp := (List.mem_filter.mp hb).2
    simpa using hp
  refine ⟨?_, hifst, ?_, ?_, ?_, hcsnd⟩
  · intro b hb
    rcases mem_foldl_upsert Business.id b _ _ hb with h | h
    · have hpred := (List.mem_filter.mp h).2
      intro hbi
      rw [Bool.not_eq_eq_eq_not, Bool.not_true, hbi] at hpred
      have hco : (deleteBusiness i deletedIds custom).1.contains i = true :=
        List.elem_iff.mpr hifst
      rw [hpred] at hco
      exact Bool.false_ne_true hco
    · exact hcsnd b h
  · intro hmem
    simp only [deleteBusiness]
    rw [if_pos (List.elem_iff.mpr hmem)]
  · intro hnd
    simp only [deleteBusiness]
    by_cases hc : deletedIds.contains i = true
    · rw [if_pos hc]; exact hnd
    · rw [if_neg hc]
      refine List.nodup_append.mpr ⟨hnd, List.nodup_singleton i, ?_⟩
      intro a ha hai
      rw [List.mem_singleton] at hai
      exact absurd (List.elem_iff.mpr (hai ▸ ha)) hc
  · have h5a : ((deleteBusiness i deletedIds custom).1.contains i) = true :=
      List.elem_iff.mpr hifst
    have h5b : (deleteBusiness i deletedIds custom).2.filter
        (fun b => !(b.id == i)) = (deleteBusiness i deletedIds custom).2 := by
      apply List.filter_eq_self.mpr
      intro b hb
      simp only [deleteBusiness] at hb
      exact (List.mem_filter.mp hb).2
    show ((if (deleteBusiness i deletedIds custom).1.contains i then
        (deleteBusiness i deletedIds custom).1
      else (deleteBusiness i deletedIds custom).1 ++ [i]),
        (deleteBusiness i deletedIds custom).2.filter (fun b => !(b.id == i))) =
      deleteBusiness i deletedIds custom
    rw [if_pos h5a, h5b]

/-- Witness for C5's conditional parts at concrete data. -/
theorem deleteBusiness_spec_witness :
    ((1 : Int) ∈ [(1 : Int)] →
      (deleteBusiness 1 [1] [⟨1, "A", "Food", some 4, 0, 0, none⟩]).1 = [1]) ∧
    (deleteBusiness 1 [1] [⟨1, "A", "Food", some 4, 0, 0, none⟩]).1.Nodup :=
  ⟨(deleteBusiness_spec [] _ [1] 1).2.2.1,
    (deleteBusiness_spec [] [⟨1, "A", "Food", some 4, 0, 0, none⟩] [1] 1).2.2.2.1
      (by decide)⟩

/-- C6: `getRecommendedBusinesses(n)` returns at most `n` entries, sorted in
non-increasing score order, and never includes a business whose id is among
the user's favorites. -/
theorem getRecommendedBusinesses_spec (now : Int) (dealsCache : List Deal)
    (businesses : List Business) (prefs : Preferences)
    (allReviews : List Review) (limit : Nat) :
    (getRecommendedBusinesses now dealsCache businesses prefs allReviews
        limit).length ≤ limit ∧
    List.Pairwise (fun x y : Business × ℚ => y.2 ≤ x.2)
      (getRecommendedBusinesses now dealsCache businesses prefs allReviews
        limit) ∧
    ∀ p ∈ getRecommendedBusinesses now dealsCache businesses prefs allReviews
        limit, p.1.id ∉ prefs.favorites := by
  refine ⟨?_, ?_, ?_⟩
  · simp only [getRecommendedBusinesses]
    rw [List.length_take]
    exact min_le_left _ _
  · simp only [getRecommendedBusinesses]
    have hsorted := @List.sorted_mergeSort (Business × ℚ)
      (fun x y : Business × ℚ => decide (y.2 ≤ x.2))
      (fun a b c hab hbc => by
        simp only [decide_eq_true_eq] at hab hbc ⊢
        exact le_trans hbc hab)
      (fun a b => by
        rcases le_total b.2 a.2 with h | h <;> simp [h])
      ((businesses.filter (fun b => !(prefs.favorites.contains b.id))).map
        (fun b => (b, scoreBusiness now dealsCache b prefs
          (allReviews.filter (fun r => r.businessId == b.id)))))
    have hsorted' : List.Pairwise (fun x y : Business × ℚ => y.2 ≤ x.2)
        (((businesses.filter (fun b => !(prefs.favorites.contains b.id))).map
          (fun b => (b, scoreBusiness now dealsCache b prefs
            (allReviews.filter (fun r => r.businessId == b.id))))).mergeSort
          (fun x y : Business × ℚ => decide (y.2 ≤ x.2))) := by
      refine hsorted.imp ?_
      intro a b h
      exact of_decide_eq_true h
    exact hsorted'.sublist (List.take_sublist _ _)
  · intro p hp
    simp only [getRecommendedBusinesses] at hp
    have hp1 := (List.take_sublist _ _).subset hp
    have hp2 := List.mem_mergeSort.mp hp1
    obtain ⟨b, hbf, hbe⟩ := List.mem_map.mp hp2
    have hmemf := List.mem_filter.mp hbf
    intro hfav
    have : p.1 = b := by rw [← hbe]
    rw [this] at hfav
    have hcon := hmemf.2
    rw [Bool.not_eq_eq_eq_not, Bool.not_true] at hcon
    have : prefs.favorites.contains b.id = true := List.elem_iff.mpr hfav
    rw [hcon] at this
    exact Bool.false_ne_true this

lemma lookupRoute_eq_undef (route : List Char) (h : route ∉ routeKeys)
    (hp : route ∉ protoProps) : lookupRoute route = RouteValue.undef := by
  simp only [routeKeys, List.mem_cons, List.not_mem_nil, or_false, not_or] at h
  obtain ⟨h1, h2, h3, h4, h5⟩ := h
  simp only [lookupRoute]
  rw [if_neg h1, if_neg h2, if_neg h3, if_neg h4, if_neg h5, if_neg hp]

/-- C7 counterexample: `toString` is not a defined route, yet the hash
`#/toString` does not load the home page — `routes['toString']` finds the
truthy inherited `Object.prototype.toString`, so the router calls it and
renders nothing. -/
theorem handleRoute_counterexample :
    firstSegment "#/toString".toList ∉ routeKeys ∧
    handleRoute "#/toString".toList ≠ Dispatch.page Page.home ∧
    handleRoute "#/toString".toList =
      Dispatch.inheritedCall "toString".toList := by decide

/-- C7 (amended): the router loads the business page with the given id for a
hash `#/business/<id>` with a non-empty (slash-free) id; a hash whose first
segment names a defined route loads that route's page; the empty hash loads
the home page, as does any hash whose unmatched first segment is not the
name of an inherited `Object.prototype` property — a first segment naming
such an inherited property instead makes the router call that member and
load no page. -/
theorem handleRoute_spec (id hash : List Char) :
    ((id ≠ [] ∧ '/' ∉ id) →
      handleRoute ("#/business/".toList ++ id) =
        Dispatch.page (Page.business (some id))) ∧
    (firstSegment hash ∈ routeKeys →
      ∃ p, handleRoute hash = Dispatch.page p ∧
        routeName p = firstSegment hash) ∧
    handleRoute [] = Dispatch.page Page.home ∧
    (firstSegment hash ∉ routeKeys → firstSegment hash ∉ protoProps →
      handleRoute hash = Dispatch.page Page.home) ∧
    (firstSegment hash ∈ protoProps →
      handleRoute hash = Dispatch.inheritedCall (firstSegment hash)) := by
  refine ⟨?_, ?_, by decide, ?_, ?_⟩
  · rintro ⟨hne, hns⟩
    have h1 : ("#/business/".toList ++ id).drop 2 =
        "business".toList ++ '/' :: id := rfl
    have hsplit : splitSlash (("#/business/".toList ++ id).drop 2) =
        ["business".toList, id] := by
      rw [h1, splitSlash_append_cons "business".toList (by decide) id,
        splitSlash_no_slash id hns]
    have hne2 : "#/business/".toList ++ id ≠ [] := by simp
    simp only [handleRoute, if_neg hne2, hsplit]
    simp [hne]
  · intro hmem
    simp only [firstSegment] at hmem
    by_cases hh : hash = []
    · rw [hh] at hmem
      exact absurd hmem (by decide)
    · simp only [handleRoute, firstSegment, if_neg hh]
      split
      next hcond =>
        refine ⟨Page.business (match (splitSlash (hash.drop 2)).drop 1 with
          | [] => none
          | p :: _ => if p = [] then none else some p), rfl, ?_⟩
        rw [hcond.1]
        rfl
      next hcond =>
        simp only [routeKeys, List.mem_cons, List.not_mem_nil, or_false] at hmem
        rcases hmem with h | h | h | h | h <;> rw [h]
        · exact ⟨Page.home, by decide, by decide⟩
        · exact ⟨Page.business none, by decide, by decide⟩
        · exact ⟨Page.favorites, by decide, by decide⟩
        · exact ⟨Page.admin, by decide, by decide⟩
        · exact ⟨Page.judge, by decide, by decide⟩
  · intro hnm hnp
    simp only [firstSegment] at hnm hnp
    by_cases hh : hash = []
    · rw [hh]; decide
    · simp only [handleRoute, if_neg hh]
      split
      next hcond =>
        exfalso
        apply hnm
        rw [hcond.1]
        decide
      next =>
        rw [lookupRoute_eq_undef _ hnm hnp]
  · intro hp
    simp only [firstSegment] at hp
    by_cases hh : hash = []
    · rw [hh] at hp
      exact absurd hp (by decide)
    · simp only [handleRoute, firstSegment, if_neg hh]
      split
      next hcond =>
        rw [hcond.1] at hp
        exact absurd hp (by decide)
      next =>
        have h1 : (splitSlash (hash.drop 2)).headD [] ≠ "home".toList := by
          intro he; rw [he] at hp; exact absurd hp (by decide)
        have h2 : (splitSlash (hash.drop 2)).headD [] ≠ "business".toList := by
          intro he; rw [he] at hp; exact absurd hp (by decide)
        have h3 : (splitSlash (hash.drop 2)).headD [] ≠ "favorites".toList := by
          intro he; rw [he] at hp; exact absurd hp (by decide)
        have h4 : (splitSlash (hash.drop 2)).headD [] ≠ "admin".toList := by
          intro he; rw [he] at hp; exact absurd hp (by decide)
        have h5 : (splitSlash (hash.drop 2)).headD [] ≠ "judge".toList := by
          intro he; rw [he] at hp; exact absurd hp (by decide)
        simp only [lookupRoute]
        rw [if_neg h1, if_neg h2, if_neg h3, if_neg h4, if_neg h5, if_pos hp]

/-- Witness for the amended C7 theorem's conditional parts at concrete
inputs. -/
theorem handleRoute_spec_witness :
    handleRoute ("#/business/".toList ++ "42".toList) =
      Dispatch.page (Page.business (some "42".toList)) ∧
    (∃ p, handleRoute "#/judge".toList = Dispatch.page p ∧
      routeName p = firstSegment "#/judge".toList) ∧
    handleRoute "#/nonsense".toList = Dispatch.page Page.home ∧
    handleRoute "#/valueOf".toList =
      Dispatch.inheritedCall "valueOf".toList :=
  ⟨(handleRoute_spec "42".toList "#/judge".toList).1 (by decide),
    (handleRoute_spec "42".toList "#/judge".toList).2.1 (by decide),
    (handleRoute_spec "42".toList "#/nonsense".toList).2.2.2.1 (by decide)
      (by decide),
    (handleRoute_spec "42".toList "#/valueOf".toList).2.2.2.2 (by decide)⟩

/-- C9: `likeReview` and `commentOnReview` report `Review not found` exactly
when no review with the given id is in the merged list, leaving the stored
custom reviews unchanged in that case; on success `likeReview` increments the
found review's likes by exactly 1 and `commentOnReview` appends exactly the
given comment. -/
theorem likeComment_not_found_spec (base custom : List Review)
    (deletedIds : List Int) (reviewId : Int) (commentText : String) :
    ((likeReview base custom deletedIds reviewId).1 =
        Except.error "Review not found" ↔
      ∀ r ∈ mergeReviews base custom deletedIds, r.id ≠ reviewId) ∧
    ((commentOnReview base custom deletedIds reviewId commentText).1 =
        Except.error "Review not found" ↔
      ∀ r ∈ mergeReviews base custom deletedIds, r.id ≠ reviewId) ∧
    ((∀ r ∈ mergeReviews base custom deletedIds, r.id ≠ reviewId) →
      (likeReview base custom deletedIds reviewId).2 = custom ∧
      (commentOnReview base custom deletedIds reviewId commentText).2 =
        custom) ∧
    (∀ r, (mergeReviews base custom deletedIds).find?
        (fun x => x.id == reviewId) = some r →
      (∃ q, r.likes = some q ∧
        (likeReview base custom deletedIds reviewId).1 =
          Except.ok { r with likes := some (q + 1) }) ∧
      (∃ l, r.comments = CommentsField.arr l ∧
        (commentOnReview base custom deletedIds reviewId commentText).1 =
          Except.ok { r with
            comments := CommentsField.arr (l ++ [commentText]) })) := by
  have hiff : ((mergeReviews base custom deletedIds).find?
      (fun x => x.id == reviewId) = none) ↔
      (∀ r ∈ mergeReviews base custom deletedIds, r.id ≠ reviewId) := by
    rw [List.find?_eq_none]
    constructor
    · intro h r hr hre
      exact h r hr (beq_iff_eq.mpr hre)
    · intro h r hr hb
      exact h r hr (beq_iff_eq.mp hb)
  refine ⟨?_, ?_, ?_, ?_⟩
  · constructor
    · intro herr
      apply hiff.mp
      cases hfind : (mergeReviews base custom deletedIds).find?
          (fun x => x.id == reviewId) with
      | none => rfl
      | some r0 =>
          simp only [likeReview, hfind] at herr
          exact absurd herr (by simp)
    · intro hforall
      have hfind := hiff.mpr hforall
      simp [likeReview, hfind]
  · constructor
    · intro herr
      apply hiff.mp
      cases hfind : (mergeReviews base custom deletedIds).find?
          (fun x => x.id == reviewId) with
      | none => rfl
      | some r0 =>
          simp only [commentOnReview, hfind] at herr
          exact absurd herr (by simp)
    · intro hforall
      have hfind := hiff.mpr hforall
      simp [commentOnReview, hfind]
  · intro hforall
    have hfind := hiff.mpr hforall
    constructor
    · simp [likeReview, hfind]
    · simp [commentOnReview, hfind]
  · intro r0 hfind
    have hmem : r0 ∈ mergeReviews base custom deletedIds :=
      List.mem_of_find?_eq_some hfind
    have hnorm := mem_mergeReviews_normalized base custom deletedIds r0 hmem
    obtain ⟨⟨q, hq⟩, ⟨l, hl⟩, himg⟩ := hnorm
    constructor
    · refine ⟨q, hq, ?_⟩
      have hn : Normalized { r0 with likes := some (numberOr0 r0.likes + 1) } :=
        ⟨⟨numberOr0 r0.likes + 1, rfl⟩, ⟨l, hl⟩, himg⟩
      have hupd : normalizeReview
          { r0 with likes := some (numberOr0 r0.likes + 1) } =
          { r0 with likes := some (q + 1) } := by
        rw [normalizeReview_of_normalized _ hn, hq]
        rfl
      simp only [likeReview, hfind, upsertCustomReview]
      rw [hupd]
    · refine ⟨l, hl, ?_⟩
      have hn2 : Normalized { r0 with
          comments := CommentsField.arr (l ++ [commentText]) } :=
        ⟨⟨q, hq⟩, ⟨l ++ [commentText], rfl⟩, himg⟩
      simp only [commentOnReview, hfind, upsertCustomReview]
      rw [hl]
      rw [normalizeReview_of_normalized _ hn2]

/-- Witness for C9: on an empty store every like attempt reports
`Review not found`. -/
theorem likeComment_not_found_witness :
    (likeReview [] [] [] 1).1 = Except.error "Review not found" :=
  (likeComment_not_found_spec [] [] [] 1 "c").1.mpr
    (by intro r hr; simp [mergeReviews] at hr)

/-- C10: every review returned by `mergeReviews`, `loadReviews`,
`getReviewsForBusiness`, `addReview`, `likeReview` or `commentOnReview` is
normalized — numeric likes, array comments, non-empty image — because every
read and write path passes through `normalizeReview`. -/
theorem reviews_normalized_spec (base custom : List Review)
    (deletedIds hiddenIds : List Int) (businessId now reviewId : Int)
    (text commentText : String) (rating : ℚ) (image : Option String) :
    (∀ r ∈ mergeReviews base custom deletedIds, Normalized r) ∧
    (∀ r ∈ loadReviews base custom deletedIds hiddenIds, Normalized r) ∧
    (∀ r ∈ getReviewsForBusiness base custom deletedIds businessId,
      Normalized r) ∧
    Normalized (addReview now businessId text rating image custom).1 ∧
    (∀ r', (likeReview base custom deletedIds reviewId).1 = Except.ok r' →
      Normalized r') ∧
    (∀ r', (commentOnReview base custom deletedIds reviewId
        commentText).1 = Except.ok r' → Normalized r') := by
  refine ⟨fun r hr => mem_mergeReviews_normalized base custom deletedIds r hr,
    ?_, ?_, ?_, ?_, ?_⟩
  · intro r hr
    exact mem_mergeReviews_normalized base custom deletedIds r
      (List.mem_of_mem_filter hr)
  · intro r hr
    exact mem_mergeReviews_normalized base custom deletedIds r
      (List.mem_of_mem_filter hr)
  · exact normalizeReview_normalized _
  · intro r' h
    cases hfind : (mergeReviews base custom deletedIds).find?
        (fun x => x.id == reviewId) with
    | none => simp [likeReview, hfind] at h
    | some r0 =>
        simp only [likeReview, hfind, upsertCustomReview,
          Except.ok.injEq] at h
        rw [← h]
        exact normalizeReview_normalized _
  · intro r' h
    cases hfind : (mergeReviews base custom deletedIds).find?
        (fun x => x.id == reviewId) with
    | none => simp [commentOnReview, hfind] at h
    | some r0 =>
        simp only [commentOnReview, hfind, upsertCustomReview,
          Except.ok.injEq] at h
        rw [← h]
        exact normalizeReview_normalized _

/-- Witness for C10 at concrete data: the review returned by a successful
`likeReview` is normalized. -/
theorem reviews_normalized_witness :
    Normalized (⟨1, 1, "t", 4, some 3, CommentsField.arr [], some "x.svg", 0⟩ :
      Review) :=
  (reviews_normalized_spec
    [⟨1, 1, "t", 4, some 2, CommentsField.arr [], some "x.svg", 0⟩]
    [] [] [] 1 5 1 "t" "c" 4 none).2.2.2.2.1
    ⟨1, 1, "t", 4, some 3, CommentsField.arr [], some "x.svg", 0⟩
    (by norm_num [likeReview, mergeReviews, lookupLast, upsertCustomReview,
        normalizeReview, numberOr0] ; decide)

/-- Witness for C8: a business at distance exactly 0 is excluded. -/
theorem filterByDistance_witness :
    (⟨1, "A", "Food", some 4, 0, 0, some 0⟩ : Business) ∉
      filterByDistance [⟨1, "A", "Food", some 4, 0, 0, some 0⟩] 5 :=
  (filterByDistance_characterization [⟨1, "A", "Food", some 4, 0, 0, some 0⟩] 5
    ⟨1, "A", "Food", some 4, 0, 0, some 0⟩).2 rfl
